import Mathlib

/-!
Verification development for the Inkrypt deployment tooling
(`src/deploy/cf-api.mjs` and the config-resolver script embedded in
`src/unnamed/part_000`).  JavaScript strings are modelled as `List Char`
(the inputs of interest are ASCII); `String` wrappers are provided where
statements read better.  JavaScript built-ins used by the source
(`String.prototype.trim`, `toLowerCase`, `replace`, `split`, the WHATWG
`URL` constructor restricted to the shapes exercised here, `JSON.parse`
as an abstract parse outcome) are modelled explicitly below with
comments stating the modelling choices.
-/

deriving instance DecidableEq for Except

namespace Inkrypt

/-- `pat` occurs as a contiguous substring of the list. -/
def hasSub (pat : List Char) : List Char → Bool
  | [] => pat.isEmpty
  | c :: rest => pat.isPrefixOf (c :: rest) || hasSub pat rest

/-- Whitespace as trimmed by `String.prototype.trim` (restricted to the
ASCII whitespace characters; exotic Unicode whitespace is not modelled). -/
def isWs (c : Char) : Bool :=
  c == ' ' || c == '\t' || c == '\n' || c == '\r'

/-- Model of `String.prototype.trim`: drop leading and trailing whitespace. -/
def jsTrim (l : List Char) : List Char :=
  ((l.dropWhile isWs).reverse.dropWhile isWs).reverse

def jsTrimS (s : String) : String := String.mk (jsTrim s.data)

/-- Model of `toLowerCase` per character (ASCII letters only; the inputs
validated by this tool are ASCII). -/
def lowerChar : Char → Char
  | 'A' => 'a' | 'B' => 'b' | 'C' => 'c' | 'D' => 'd' | 'E' => 'e' | 'F' => 'f'
  | 'G' => 'g' | 'H' => 'h' | 'I' => 'i' | 'J' => 'j' | 'K' => 'k' | 'L' => 'l'
  | 'M' => 'm' | 'N' => 'n' | 'O' => 'o' | 'P' => 'p' | 'Q' => 'q' | 'R' => 'r'
  | 'S' => 's' | 'T' => 't' | 'U' => 'u' | 'V' => 'v' | 'W' => 'w' | 'X' => 'x'
  | 'Y' => 'y' | 'Z' => 'z' | c => c

def lowerL (l : List Char) : List Char := l.map lowerChar

def lowerS (s : String) : String := String.mk (lowerL s.data)

/-- Model of `input.replace(/\.+$/, '')`: remove the trailing run of dots. -/
def stripTrailingDots (l : List Char) : List Char :=
  (l.reverse.dropWhile (· == '.')).reverse

/-- Model of the `replace` that deletes the trailing run of dashes
(the regex `dash-plus-dollar` with an empty replacement). -/
def stripTrailingDashes (l : List Char) : List Char :=
  (l.reverse.dropWhile (· == '-')).reverse

/-- Model of `'x'.split('.')` (JavaScript semantics: empty pieces kept,
`''.split('.') = ['']`). -/
def splitOnDot : List Char → List (List Char)
  | [] => [[]]
  | c :: rest =>
    if c = '.' then [] :: splitOnDot rest
    else
      match splitOnDot rest with
      | [] => [[c]]
      | h :: t => (c :: h) :: t

/-- Model of `'x'.split(',')` (same JavaScript semantics as `splitOnDot`;
`String.split` from the Lean library is avoided because the route
handler's outcome must stay computable by kernel reduction). -/
def splitOnComma : List Char → List (List Char)
  | [] => [[]]
  | c :: rest =>
    if c = ',' then [] :: splitOnComma rest
    else
      match splitOnComma rest with
      | [] => [[c]]
      | h :: t => (c :: h) :: t

/-- `'://'` occurs in the input, i.e. `input.includes('://')`. -/
def sepInfix (l : List Char) : Bool := hasSub [':', '/', '/'] l

/-- The character class of the regex `/^[a-z0-9.-]+$/` used by the
config-resolver's `normalizeDomain`. -/
def domainChars : List Char := "abcdefghijklmnopqrstuvwxyz0123456789.-".data

/-- The character class of the regex `/^[a-z0-9-]+$/` used on labels. -/
def labelChars : List Char := "abcdefghijklmnopqrstuvwxyz0123456789-".data

/-- Model of `/^[a-z0-9.-]+$/.test(s)`: nonempty and every char in class. -/
def regexDomainAll (l : List Char) : Bool :=
  !l.isEmpty && l.all (domainChars.contains ·)

/-- Model of `/^[a-z0-9-]+$/.test(s)`. -/
def regexLabel (l : List Char) : Bool :=
  !l.isEmpty && l.all (labelChars.contains ·)

/-- The per-label validation loop of the config-resolver's
`normalizeDomain` (part_000 lines 291-297): returns the first error. -/
def labelsCheck : List (List Char) → Option String
  | [] => none
  | l :: rest =>
    if l.isEmpty then some "DOMAIN contains an empty label"
    else if 63 < l.length then some "DOMAIN label is too long"
    else if !regexLabel l then some "DOMAIN label contains invalid characters"
    else if l.head? == some '-' || l.getLast? == some '-' then
      some "DOMAIN label must not start or end with \x22-\x22"
    else labelsCheck rest

/-- Components of a parsed URL as read by `normalizeDomain`
(`protocol` without the trailing colon, `hostname`, `pathname`,
`search`, `hash`; `port` is validated but never read, so not stored). -/
structure URLRec where
  scheme : List Char
  hostname : List Char
  pathname : List Char
  search : List Char
  hash : List Char
deriving DecidableEq, Repr

def schemeOkChar (c : Char) : Bool :=
  c.isAlpha || c.isDigit || c == '+' || c == '-' || c == '.'

/-- Characters that may not appear in a URL host (WHATWG forbidden host
code points, plus `%` and non-ASCII, whose decoding/punycoding is not
modelled: such inputs yield `none`, i.e. a constructor failure). -/
def badHostChar (c : Char) : Bool :=
  c == '%' || c == '[' || c == ']' || c == '@' || c == '<' || c == '>' ||
  c == '^' || c == '|' || c == '\\' || c.toNat < 33 || 126 < c.toNat

def portToNat (l : List Char) : Nat :=
  l.foldl (fun n c => n * 10 + (c.toNat - 48)) 0

/-- Model of the WHATWG `URL` constructor, restricted to the input shapes
this tool exercises (an absolute URL containing `://`).  `none` stands
for the constructor throwing `TypeError`.  Not modelled: dot-segment
normalization of paths, percent-encoded or IDN hosts, IPv6 hosts
(all of these yield `none`). -/
def parseURL (l : List Char) : Option URLRec :=
  let schemeRaw := l.takeWhile (fun c => !(c == ':'))
  match l.dropWhile (fun c => !(c == ':')) with
  | [] => none
  | _ :: afterColon =>
    if schemeRaw.isEmpty then none
    else if !(schemeRaw.headD 'a').isAlpha then none
    else if !(schemeRaw.all schemeOkChar) then none
    else
      let isDelim : Char → Bool := fun c => c == '/' || c == '?' || c == '#'
      let rest := afterColon.dropWhile (fun c => c == '/')
      let auth := rest.takeWhile (fun c => !isDelim c)
      let tl := rest.dropWhile (fun c => !isDelim c)
      let hostport := (auth.reverse.takeWhile (fun c => !(c == '@'))).reverse
      let host := hostport.takeWhile (fun c => !(c == ':'))
      let portPart := (hostport.dropWhile (fun c => !(c == ':'))).drop 1
      if host.isEmpty then none
      else if host.any badHostChar then none
      else if !(portPart.all Char.isDigit) then none
      else if decide (0 < portPart.length) &&
              (decide (5 < portPart.length) || decide (65535 < portToNat portPart)) then none
      else
        let pathname :=
          if (tl.headD ' ') == '/' then tl.takeWhile (fun c => !(c == '?' || c == '#'))
          else ['/']
        let afterPath :=
          if (tl.headD ' ') == '/' then tl.dropWhile (fun c => !(c == '?' || c == '#'))
          else tl
        let qpart :=
          if (afterPath.headD ' ') == '?' then (afterPath.drop 1).takeWhile (fun c => !(c == '#'))
          else []
        let hrest :=
          if (afterPath.headD ' ') == '?' then (afterPath.drop 1).dropWhile (fun c => !(c == '#'))
          else afterPath
        let fpart := if (hrest.headD ' ') == '#' then hrest.drop 1 else []
        some ⟨lowerL schemeRaw, lowerL host, pathname,
              if qpart.isEmpty then [] else '?' :: qpart,
              if fpart.isEmpty then [] else '#' :: fpart⟩

/-- The non-URL tail of `cf-api.mjs`'s `normalizeDomain` (lines 52-61),
applied to the trimmed input: reject path/query/hash and ports, strip
trailing dots, lowercase, require a dot.  This variant performs no
charset, length or per-label validation. -/
def cfBare (input : List Char) : Except String (List Char) :=
  if input.contains '/' || input.contains '?' || input.contains '#' then
    .error "DOMAIN must not include path/query/hash"
  else if input.contains ':' then .error "DOMAIN must not include a port"
  else if !((stripTrailingDots (lowerL input)).contains '.') then
    .error "DOMAIN must contain at least one dot, e.g. notes.example.com"
  else .ok (stripTrailingDots (lowerL input))

/-- The non-URL tail of the config-resolver's `normalizeDomain`
(part_000 lines 276-299): as `cfBare` plus emptiness, charset, overall
length and per-label validation. -/
def cfgBare (input : List Char) : Except String (List Char) :=
  if input.contains '/' || input.contains '?' || input.contains '#' then
    .error "DOMAIN must not include path/query/hash"
  else if input.contains ':' then .error "DOMAIN must not include a port"
  else if (stripTrailingDots (lowerL input)).isEmpty then .error "DOMAIN is required"
  else if !regexDomainAll (stripTrailingDots (lowerL input)) then
    .error "DOMAIN must be an ASCII hostname (use punycode for IDN)"
  else if !((stripTrailingDots (lowerL input)).contains '.') then
    .error "DOMAIN must contain at least one dot, e.g. notes.example.com"
  else if 253 < (stripTrailingDots (lowerL input)).length then .error "DOMAIN is too long"
  else
    match labelsCheck (splitOnDot (stripTrailingDots (lowerL input))) with
    | some e => .error e
    | none => .ok (stripTrailingDots (lowerL input))

/-- The recursive call `normalizeDomain(url.hostname)`, unrolled one
level: a parsed hostname never contains `:` or `/` (see `parseURL`), so
its own URL branch is unreachable; the guard error models that dead
branch. -/
def hostEntry (bare : List Char → Except String (List Char)) (h : List Char) :
    Except String (List Char) :=
  if h.isEmpty then .error "DOMAIN is required"
  else if (jsTrim h).isEmpty then .error "DOMAIN is required"
  else if sepInfix (jsTrim h) then .error "unreachable: hostname contains ://"
  else bare (jsTrim h)

/-- Common entry of both `normalizeDomain` variants (the `!raw` check,
trim, URL branch with scheme and path/query/hash validation, recursion
on the hostname), parameterised by the non-URL tail. -/
def normEntry (bare : List Char → Except String (List Char)) (raw : List Char) :
    Except String (List Char) :=
  if raw.isEmpty then .error "DOMAIN is required"
  else if (jsTrim raw).isEmpty then .error "DOMAIN is required"
  else if sepInfix (jsTrim raw) then
    match parseURL (jsTrim raw) with
    | none => .error "Invalid URL"
    | some u =>
      if !(u.scheme == "http".data || u.scheme == "https".data) then
        .error "DOMAIN must be a hostname or a http(s) URL"
      else if !(u.pathname == ['/']) || !u.search.isEmpty || !u.hash.isEmpty then
        .error "DOMAIN URL must not include path/query/hash"
      else hostEntry bare u.hostname
  else bare (jsTrim raw)

/-- `normalizeDomain` of `src/deploy/cf-api.mjs` (lines 36-62). -/
def normalizeDomainCf (s : String) : Except String String :=
  (normEntry cfBare s.data).map String.mk

/-- `normalizeDomain` of the config-resolver script
(`src/unnamed/part_000` lines 259-300). -/
def normalizeDomainCfg (s : String) : Except String String :=
  (normEntry cfgBare s.data).map String.mk

def isErr {ε α : Type} : Except ε α → Bool
  | .error _ => true
  | .ok _ => false

/-- Tail-duplicating dash collapse: drops a dash whose previously kept
character was a dash.  `prev` is the last kept character. -/
def cdAux : Char → List Char → List Char
  | _, [] => []
  | prev, c :: rest =>
    if prev = '-' && c = '-' then cdAux prev rest
    else c :: cdAux c rest

/-- Model of the `replace` that rewrites every run of two or more dashes
to a single dash (equivalently: every dash run collapses to one). -/
def collapseDashes : List Char → List Char
  | [] => []
  | c :: rest => c :: cdAux c rest

/-- `buildName` of the config-resolver script (part_000 lines 317-322).
The JS optional parameter `maxLen = 63` is passed explicitly here. -/
def buildName (pfx slug hashv : String) (maxLen : Nat) : String :=
  let fixed := pfx.data ++ '-' :: '-' :: hashv.data
  let availableSlugLen : Int := (maxLen : Int) - fixed.length
  let trimmedSlug := stripTrailingDashes (slug.data.take (max 1 availableSlugLen).toNat)
  String.mk (collapseDashes (pfx.data ++ '-' :: (trimmedSlug ++ '-' :: hashv.data)))

/-! ### Control-plane client (`cf`, cf-api.mjs lines 86-135) -/

/-- Minimal JSON value model for the response envelope.  `JSON.parse`
itself is a JS built-in; its outcome is supplied as data (see
`CfResponse.parsed`). -/
inductive JsonVal where
  | null : JsonVal
  | jbool : Bool → JsonVal
  | jnum : Int → JsonVal
  | jstr : String → JsonVal
  | jarr : List JsonVal → JsonVal
  | jobj : List (String × JsonVal) → JsonVal

/-- `data?.k`: field access with optional chaining (`none` plays the role
of `undefined`; non-objects and `null` yield `undefined`). -/
def jget : JsonVal → String → Option JsonVal
  | .jobj fields, k => (fields.find? (fun p => p.1 == k)).map (·.2)
  | _, _ => none

/-- `data?.[i]` on arrays. -/
def jindex : JsonVal → Nat → Option JsonVal
  | .jarr l, i => l.get? i
  | _, _ => none

/-- An HTTP response as observed by `cf`: the status, the body text, and
the outcome of `JSON.parse(bodyText)` (`none` models the parser
throwing).  `parsed` is only consulted when `bodyText` is nonempty. -/
structure CfResponse where
  status : Nat
  bodyText : String
  parsed : Option JsonVal

/-- `resp.ok` of the Fetch API: status in 200..299. -/
def is2xx (st : Nat) : Bool := decide (200 ≤ st) && decide (st ≤ 299)

/-- The `CloudflareApiError` payload (message rendering interpolates the
status into a default string; the claims do not inspect the message, so
the chain `data?.errors?.[0]?.message ?? data?.messages?.[0]?.message`
is carried as `firstErrMsg`, `none` standing for the default). -/
structure ApiError where
  firstErrMsg : Option JsonVal
  status : Nat
  url : String
  errors : Option JsonVal
  bodyTxt : Option String

/-- The envelope value: `bodyText ? JSON.parse(bodyText) : null`, with
`none` when the parse throws. -/
def dataOf (resp : CfResponse) : Option JsonVal :=
  if resp.bodyText = "" then some .null else resp.parsed

/-- `data?.success === false`. -/
def successIsFalse (d : JsonVal) : Bool :=
  match jget d "success" with
  | some (.jbool false) => true
  | _ => false

/-- The response-classification logic of `cf` after the fetch: throw on a
non-JSON nonempty body, throw on non-2xx or an envelope with
`success === false`, otherwise return the unwrapped `data?.result`. -/
def cfHandle (url : String) (resp : CfResponse) : Except ApiError (Option JsonVal) :=
  match dataOf resp with
  | none => .error ⟨none, resp.status, url, none, some resp.bodyText⟩
  | some d =>
    if !is2xx resp.status || successIsFalse d then
      let m1 := (jget d "errors").bind (fun e => (jindex e 0).bind (fun e0 => jget e0 "message"))
      let m2 := (jget d "messages").bind (fun e => (jindex e 0).bind (fun e0 => jget e0 "message"))
      .error ⟨(m1 <|> m2), resp.status, url, jget d "errors", some resp.bodyText⟩
    else .ok (jget d "result")

/-! ### Zone resolution (`resolveZone`, cf-api.mjs lines 137-165) -/

/-- A zone as returned by `GET /zones` (`account_id` is `zone.account?.id`). -/
structure Zone where
  id : String
  name : String
  accountId : Option String
deriving DecidableEq, Repr

structure ZoneInfo where
  zone_id : String
  zone_name : String
  account_id : Option String
deriving DecidableEq, Repr

/-- The candidate zone names: `labels.slice(i).join('.')` for
`0 ≤ i ≤ labels.length - 2`, most specific first. -/
def candidatesOf (labels : List (List Char)) : List String :=
  (List.range (labels.length - 1)).map
    (fun i => String.mk (List.intercalate ['.'] (labels.drop i)))

/-- The candidate loop of `resolveZone`.  `fetch c` models
`GET /zones?name=c&status=active&per_page=50&page=1` (an `Except.error`
is a thrown `CloudflareApiError`).  The first component records the
queried candidate names in order, instrumenting the loop's reads. -/
def resolveZoneGo (fetch : String → Except String (List Zone)) (nd : String) :
    List String → List String × Except String ZoneInfo
  | [] => ([], .error ("No active Cloudflare zone found for DOMAIN=" ++ nd ++
      ". Is it added to Cloudflare and does the token have Zone:Read?"))
  | c :: rest =>
    match fetch c with
    | .error e => ([c], .error e)
    | .ok zs =>
      match zs.find? (fun z => z.name == c) with
      | some z => ([c], .ok ⟨z.id, z.name, z.accountId⟩)
      | none =>
        let r := resolveZoneGo fetch nd rest
        (c :: r.1, r.2)

/-- `resolveZone` (cf-api.mjs lines 137-165): normalize, enumerate the
suffix candidates, return the first exact active-zone match. -/
def resolveZone (fetch : String → Except String (List Zone)) (raw : String) :
    List String × Except String ZoneInfo :=
  match normalizeDomainCf raw with
  | .error e => ([], .error e)
  | .ok nd =>
    let labels := splitOnDot nd.data
    if labels.length < 2 then ([], .error "DOMAIN must contain at least one dot")
    else resolveZoneGo fetch nd (candidatesOf labels)

/-! ### DNS record convergence (`ensureDnsA`, cf-api.mjs lines 167-214) -/

structure DnsRecord where
  id : String
  rtype : String
  name : String
  content : String
  proxied : Bool
deriving DecidableEq, Repr

structure DesiredRecord where
  rtype : String
  name : String
  content : String
  ttl : Nat
  proxied : Bool
deriving DecidableEq, Repr

inductive DnsAction where
  | created | updated | unchanged
deriving DecidableEq, Repr

/-- A mutating DNS call: `POST /zones/:id/dns_records` or
`PUT /zones/:id/dns_records/:recordId` with the desired body. -/
inductive DnsWrite where
  | create : DesiredRecord → DnsWrite
  | update : String → DesiredRecord → DnsWrite
deriving DecidableEq, Repr

inductive DnsFailure where
  | ambiguousRecord : String → DnsFailure
  | dnsConflict : String → String → DnsFailure
deriving DecidableEq, Repr

def desiredA (recordName ip : String) (proxied : Bool) : DesiredRecord :=
  ⟨"A", recordName, ip, 1, proxied⟩

/-- The match test of `ensureDnsA` (lines 194-198): type, name
(case-insensitive), content, proxied. -/
def dnsMatches (r : DnsRecord) (d : DesiredRecord) : Bool :=
  r.rtype == d.rtype && lowerS r.name == lowerS d.name &&
  r.content == d.content && r.proxied == d.proxied

/-- `ensureDnsA` after the fetch: `records` is the page returned for the
exact-name filter.  The result carries the reported action and the list
of mutating calls issued.  (`proxied` arrives as a boolean from the
command handler; the JS `proxied ?? true` default only fires for an
`undefined` argument, which the handler never passes.) -/
def ensureDnsA (records : List DnsRecord) (recordName ip : String)
    (proxied force : Bool) : Except DnsFailure (DnsAction × List DnsWrite) :=
  if 1 < records.length then .error (.ambiguousRecord recordName)
  else
    let desired := desiredA recordName ip proxied
    match records with
    | [] => .ok (.created, [.create desired])
    | r :: _ =>
      if dnsMatches r desired then .ok (.unchanged, [])
      else if !force then .error (.dnsConflict recordName ip)
      else .ok (.updated, [.update r.id desired])

/-! ### Route convergence (`ensureWorkerRoutes`, cf-api.mjs lines 216-246) -/

structure WorkerRoute where
  id : String
  pattern : String
  script : String
deriving DecidableEq, Repr

/-- A mutating route call: `POST /zones/:id/workers/routes` or
`PUT /zones/:id/workers/routes/:routeId` with `{pattern, script}`. -/
inductive RouteWrite where
  | create : String → String → RouteWrite
  | update : String → String → String → RouteWrite
deriving DecidableEq, Repr

inductive RouteFailure where
  | conflict : String → String → RouteFailure
deriving DecidableEq, Repr

/-- Case-insensitive pattern lookup against the initially fetched list. -/
def matchRoute (list : List WorkerRoute) (p : String) : Option WorkerRoute :=
  list.find? (fun r => lowerS r.pattern == lowerS p)

/-- The per-pattern loop of `ensureWorkerRoutes`.  The route list is
fetched once before the loop (hence a single `list` parameter that never
changes).  On a conflict the error carries the owner and the mutating
calls already issued — they are not rolled back. -/
def ensureWorkerRoutes (list : List WorkerRoute) (w : String) (force : Bool) :
    List String → Except (RouteFailure × List RouteWrite) (List RouteWrite)
  | [] => .ok []
  | p :: ps =>
    match matchRoute list p with
    | none =>
      match ensureWorkerRoutes list w force ps with
      | .ok rest => .ok (.create p w :: rest)
      | .error (f, done) => .error (f, .create p w :: done)
    | some r =>
      if r.script == w then ensureWorkerRoutes list w force ps
      else if !force then .error (.conflict p r.script, [])
      else
        match ensureWorkerRoutes list w force ps with
        | .ok rest => .ok (.update r.id p w :: rest)
        | .error (f, done) => .error (f, .update r.id p w :: done)

/-! ### Argument parsing and command dispatch (cf-api.mjs lines 4-26, 248-328) -/

/-- A flag value in the parsed-argument record: a following string token,
or the JS boolean `true` for a bare flag.  An absent key is `none`. -/
inductive ArgVal where
  | str : String → ArgVal
  | flagTrue : ArgVal
deriving DecidableEq, Repr

/-- The result of `parseArgs`: positionals in order, and the flag record
modelled as a key-to-value map (JS object assignment overwrites, so a
later `--k v` shadows an earlier one; `Object.entries` then shows a
single `k` entry, which is all the dispatch code reads). -/
structure ParsedArgs where
  positional : List String
  flags : String → Option ArgVal

def setF (f : String → Option ArgVal) (k : String) (v : ArgVal) :
    String → Option ArgVal :=
  fun q => if q = k then some v else f q

/-- `arg.startsWith('--')`. -/
def isDashDash (t : String) : Bool :=
  match t.data with
  | c1 :: c2 :: _ => c1 == '-' && c2 == '-'
  | _ => false

/-- `arg.slice(2)`. -/
def keyOf (t : String) : String := String.mk (t.data.drop 2)

/-- The scanning loop of `parseArgs` (lines 8-23): a non-flag token is
positional; a flag token takes the next token as value unless that token
is itself a flag (or absent), in which case the value is `true`. -/
def pArgs (pending : Option String) : List String → ParsedArgs → ParsedArgs
  | [], acc =>
    match pending with
    | none => acc
    | some k => ⟨acc.positional, setF acc.flags k .flagTrue⟩
  | a :: rest, acc =>
    match pending with
    | none =>
      if isDashDash a then pArgs (some (keyOf a)) rest acc
      else pArgs none rest ⟨acc.positional ++ [a], acc.flags⟩
    | some k =>
      if isDashDash a then
        pArgs (some (keyOf a)) rest ⟨acc.positional, setF acc.flags k .flagTrue⟩
      else pArgs none rest ⟨acc.positional, setF acc.flags k (.str a)⟩

def parseArgs (argv : List String) : ParsedArgs := pArgs none argv ⟨[], fun _ => none⟩

/-- `String(v)` on a flag value. -/
def argToStr : ArgVal → String
  | .str s => s
  | .flagTrue => "true"

/-- `parseBool` (lines 248-254) applied to `v` of type
boolean-or-string-or-undefined (`none` is `undefined`). -/
def parseBool : Option ArgVal → Bool
  | some .flagTrue => true
  | none => false
  | some (.str s) =>
    let t := lowerS (jsTrimS s)
    if t = "" then false
    else ["1", "true", "yes", "y", "on"].contains t

/-- The process environment variables the dispatch code reads. -/
structure EnvVars where
  cloudflareApiToken : Option String
  domainVar : Option String
  inkryptDomain : Option String
  forceTakeoverDns : Option String
  forceTakeoverRoutes : Option String

/-- `args[k] ?? envValue` where the environment supplies a string. -/
def flagOrEnv (a : ParsedArgs) (k : String) (e : Option String) : Option ArgVal :=
  match a.flags k with
  | some v => some v
  | none => e.map ArgVal.str

/-- The effective `--proxied` value in the `ensure-dns-a` handler
(line 291): `args.proxied === undefined ? true : parseBool(args.proxied)` —
absence yields `true`, not `parseBool(undefined) = false`. -/
def proxiedOf (a : ParsedArgs) : Bool :=
  match a.flags "proxied" with
  | none => true
  | some v => parseBool (some v)

/-- `parseBool(args.force ?? process.env.FORCE_TAKEOVER_DNS)` (line 292). -/
def forceDnsOf (a : ParsedArgs) (env : EnvVars) : Bool :=
  parseBool (flagOrEnv a "force" env.forceTakeoverDns)

/-- `parseBool(args.force ?? process.env.FORCE_TAKEOVER_ROUTES)` (line 319). -/
def forceRoutesOf (a : ParsedArgs) (env : EnvVars) : Bool :=
  parseBool (flagOrEnv a "force" env.forceTakeoverRoutes)

/-- `getToken` (lines 76-80): `String(args.token ?? env ?? '').trim()`,
failing when empty. -/
def getTokenM (a : ParsedArgs) (env : EnvVars) : Except String String :=
  let raw := match flagOrEnv a "token" env.cloudflareApiToken with
    | some v => argToStr v
    | none => ""
  let tok := jsTrimS raw
  if tok = "" then .error "Missing CLOUDFLARE_API_TOKEN (or --token)" else .ok tok

/-- `args.domain ?? process.env.DOMAIN ?? process.env.INKRYPT_DOMAIN`. -/
def domainChain (a : ParsedArgs) (env : EnvVars) : Option ArgVal :=
  match a.flags "domain" with
  | some v => some v
  | none =>
    match env.domainVar with
    | some s => some (.str s)
    | none => env.inkryptDomain.map ArgVal.str

/-- `args.name ?? args.domain ?? env.DOMAIN ?? env.INKRYPT_DOMAIN`. -/
def nameChain (a : ParsedArgs) (env : EnvVars) : Option ArgVal :=
  match a.flags "name" with
  | some v => some v
  | none => domainChain a env

/-- `normalizeDomain(raw)` where `raw` may be absent (`!raw` throws the
required-error before `String(raw)` ever runs). -/
def normalizeArg : Option ArgVal → Except String String
  | none => .error "DOMAIN is required"
  | some v => normalizeDomainCf (argToStr v)

/-- The route-pattern collection of the `ensure-worker-routes` handler
(lines 308-316): the single retained `--route` string value (JS objects
keep one entry per key), the dead fallback push, then split on commas,
trim, drop empties. -/
def collectPatterns (a : ParsedArgs) : List String :=
  let raw : List String :=
    match a.flags "route" with
    | some (.str s) => [s]
    | _ => []
  let raw2 :=
    if raw.isEmpty then
      match a.flags "route" with
      | some (.str s) => raw ++ [s]
      | _ => raw
    else raw
  ((raw2.flatMap (fun s => (splitOnComma s.data).map String.mk)).map jsTrimS).filter
    (fun s => s != "")

/-- The comma-split/trim/filter pipeline applied to one `--route` value. -/
def splitPatterns (v : String) : List String :=
  (((splitOnComma v.data).map String.mk).map jsTrimS).filter (fun s => s != "")

/-- The observable end of a run: an explicit `process.exit`, or an
uncaught thrown error with its message (printed on stderr by Node). -/
inductive RunOutcome where
  | exited : Nat → RunOutcome
  | threw : String → RunOutcome
deriving DecidableEq, Repr

/-- Modelled from the Node.js runtime (not from src/): an uncaught
exception terminates the process with exit code 1. -/
def runExitCode : RunOutcome → Nat
  | .exited n => n
  | .threw _ => 1

def dnsFailMsg : DnsFailure → String
  | .ambiguousRecord n => "Multiple DNS records exist for " ++ n ++ ". Refusing to continue."
  | .dnsConflict n ip => "DNS record for " ++ n ++ " exists but does not match expected A -> "
      ++ ip ++ ". Set FORCE_TAKEOVER_DNS=true to override."

def routeFailMsg : RouteFailure → String
  | .conflict p owner => "Worker route " ++ p ++ " is already bound to " ++ owner
      ++ ". Set FORCE_TAKEOVER_ROUTES=true to override."

/-- The command dispatch (lines 268-328).  Remote reads are supplied as
data: `fetchZones c` is the zone query for candidate `c`, `fetchDns` the
DNS-record page for the target name, `fetchRoutes` the zone's route
list; an `Except.error` is a thrown `CloudflareApiError`.  Mutating
calls are assumed to succeed (their failures would also surface as
thrown errors). -/
def dispatch (argv : List String) (env : EnvVars)
    (fetchZones : String → Except String (List Zone))
    (fetchDns : Except String (List DnsRecord))
    (fetchRoutes : Except String (List WorkerRoute)) : RunOutcome :=
  let args := parseArgs argv
  let cmd := (args.positional.head?).getD ""
  if cmd = "" then .exited 2
  else
    match getTokenM args env with
    | .error e => .threw e
    | .ok _tok =>
      if cmd = "resolve-zone" then
        match normalizeArg (domainChain args env) with
        | .error e => .threw e
        | .ok domain =>
          match (resolveZone fetchZones domain).2 with
          | .error e => .threw e
          | .ok _zone => .exited 0
      else if cmd = "ensure-dns-a" then
        let zoneId := jsTrimS (argToStr ((args.flags "zone-id").getD (.str "")))
        match normalizeArg (nameChain args env) with
        | .error e => .threw e
        | .ok nm =>
          let ipRaw := jsTrimS (argToStr ((args.flags "ip").getD (.str "192.0.2.1")))
          let ip := if ipRaw = "" then "192.0.2.1" else ipRaw
          let proxied := proxiedOf args
          let force := forceDnsOf args env
          if zoneId = "" then .threw "--zone-id is required"
          else if nm = "" then .threw "--name is required"
          else
            match fetchDns with
            | .error e => .threw e
            | .ok records =>
              match ensureDnsA records nm ip proxied force with
              | .error f => .threw (dnsFailMsg f)
              | .ok _ => .exited 0
      else if cmd = "ensure-worker-routes" then
        let zoneId := jsTrimS (argToStr ((args.flags "zone-id").getD (.str "")))
        let workerName := jsTrimS (argToStr ((args.flags "worker-name").getD (.str "")))
        if zoneId = "" then .threw "--zone-id is required"
        else if workerName = "" then .threw "--worker-name is required"
        else
          let patterns := collectPatterns args
          if patterns.isEmpty then .threw "At least one --route <pattern> is required"
          else
            let force := forceRoutesOf args env
            match fetchRoutes with
            | .error e => .threw e
            | .ok routes =>
              match ensureWorkerRoutes routes workerName force patterns with
              | .error (f, _done) => .threw (routeFailMsg f)
              | .ok _ => .exited 0
      else .exited 2

/-! ## Claim C1: `ensureDnsA` case analysis -/

/-- C1: for every zone, record name, ip, proxied and force, `ensureDnsA`
behaves by case analysis on the fetched records: more than one record
fails with `AmbiguousRecord` regardless of `force`; none issues exactly
one create of `{type: A, name, content: ip, ttl: 1, proxied}` and
returns `created`; a single record matching on type, case-insensitive
name, content and proxied returns `unchanged` with no write; a single
differing record fails with `DnsConflict` when `force` is false and
issues one full update returning `updated` when `force` is true. -/
theorem C1_ensureDnsA_case_analysis (records : List DnsRecord)
    (recordName ip : String) (proxied force : Bool) :
    (2 ≤ records.length →
      ensureDnsA records recordName ip proxied force
        = .error (.ambiguousRecord recordName))
    ∧ (records = [] →
      ensureDnsA records recordName ip proxied force
        = .ok (.created, [.create (desiredA recordName ip proxied)]))
    ∧ ∀ r, records = [r] →
      (dnsMatches r (desiredA recordName ip proxied) = true →
        ensureDnsA records recordName ip proxied force = .ok (.unchanged, []))
      ∧ (dnsMatches r (desiredA recordName ip proxied) = false → force = false →
        ensureDnsA records recordName ip proxied force
          = .error (.dnsConflict recordName ip))
      ∧ (dnsMatches r (desiredA recordName ip proxied) = false → force = true →
        ensureDnsA records recordName ip proxied force
          = .ok (.updated, [.update r.id (desiredA recordName ip proxied)])) := by
  refine ⟨fun h2 => ?_, fun h0 => ?_, fun r hr => ?_⟩
  · unfold ensureDnsA
    rw [if_pos (by omega)]
  · subst h0; rfl
  · subst hr
    refine ⟨fun hm => ?_, fun hm hf => ?_, fun hm hf => ?_⟩
    · simp [ensureDnsA, hm]
    · simp [ensureDnsA, hm, hf]
    · simp [ensureDnsA, hm, hf]

theorem C1_witness :
    ensureDnsA
      [⟨"i1", "A", "a.com", "1.2.3.4", true⟩, ⟨"i2", "A", "a.com", "5.6.7.8", true⟩]
      "a.com" "1.2.3.4" true false
    = .error (.ambiguousRecord "a.com") :=
  (C1_ensureDnsA_case_analysis
    [⟨"i1", "A", "a.com", "1.2.3.4", true⟩, ⟨"i2", "A", "a.com", "5.6.7.8", true⟩]
    "a.com" "1.2.3.4" true false).1 (by decide)

/-! ## Claim C7: boolean flag parsing (corrected: `--proxied` defaults true) -/

/-- C7 counterexample: the claim says absence of every boolean flag
(including `--proxied`) parses as false, but the `ensure-dns-a` handler
maps an absent `--proxied` to `true`. -/
theorem C7_counterexample :
    (parseArgs ["ensure-dns-a"]).flags "proxied" = none
    ∧ proxiedOf (parseArgs ["ensure-dns-a"]) = true := ⟨rfl, rfl⟩

/-- C7 amended: a supplied string value parses as true exactly when its
trimmed, lowercased form is one of `1/true/yes/y/on`; an absent value
parses as false; in particular `--force` is false when neither flag nor
environment override is present — but an absent `--proxied` defaults to
`true` in the `ensure-dns-a` handler. -/
theorem C7_parseBool_amended :
    (∀ s : String, parseBool (some (.str s)) = true ↔
      lowerS (jsTrimS s) ∈ (["1", "true", "yes", "y", "on"] : List String))
    ∧ parseBool none = false
    ∧ (∀ (a : ParsedArgs) (env : EnvVars),
        a.flags "force" = none → env.forceTakeoverDns = none →
        forceDnsOf a env = false)
    ∧ (∀ a : ParsedArgs, a.flags "proxied" = none → proxiedOf a = true) := by
  refine ⟨fun s => ?_, rfl, fun a env hf he => ?_, fun a hp => ?_⟩
  · have hdef : parseBool (some (.str s))
        = (if lowerS (jsTrimS s) = "" then false
           else (["1", "true", "yes", "y", "on"] : List String).contains
             (lowerS (jsTrimS s))) := rfl
    by_cases h : lowerS (jsTrimS s) = ""
    · rw [hdef, if_pos h, h]
      decide
    · rw [hdef, if_neg h]
      exact List.elem_iff
  · unfold forceDnsOf flagOrEnv
    rw [hf, he]
    rfl
  · unfold proxiedOf
    rw [hp]

theorem C7_witness :
    parseBool (some (.str " YES ")) = true ∧ proxiedOf (parseArgs []) = true :=
  ⟨(C7_parseBool_amended.1 " YES ").mpr (by decide),
   C7_parseBool_amended.2.2.2 (parseArgs []) rfl⟩

/-! ## Claim C6: control-plane client error classification -/

/-- The failure condition named by the claim: non-2xx HTTP status, or the
envelope's success flag is `false`, or the body is nonempty and not
valid JSON. -/
def cfFailCond (resp : CfResponse) : Bool :=
  (decide (resp.bodyText ≠ "") && resp.parsed.isNone) || !is2xx resp.status ||
    (match dataOf resp with
     | some d => successIsFalse d
     | none => false)

/-- C6: the client fails with an error carrying the status, url and body
text exactly when the HTTP status is not 2xx, or the envelope's success
flag is false, or the body is nonempty and not valid JSON; otherwise it
returns the unwrapped `result` payload of the envelope. -/
theorem C6_cf_error_classification (url : String) (resp : CfResponse) :
    ((∃ e, cfHandle url resp = .error e) ↔ cfFailCond resp = true)
    ∧ (∀ e, cfHandle url resp = .error e →
        e.status = resp.status ∧ e.url = url ∧ e.bodyTxt = some resp.bodyText)
    ∧ (∀ r, cfHandle url resp = .ok r →
        r = jget ((dataOf resp).getD .null) "result") := by
  cases hd : dataOf resp with
  | none =>
    have hpn : resp.bodyText ≠ "" ∧ resp.parsed = none := by
      by_cases hb : resp.bodyText = ""
      · exfalso
        unfold dataOf at hd
        rw [if_pos hb] at hd
        exact Option.noConfusion hd
      · refine ⟨hb, ?_⟩
        unfold dataOf at hd
        rw [if_neg hb] at hd
        exact hd
    refine ⟨?_, ?_, ?_⟩
    · simp [cfHandle, cfFailCond, hd, hpn.1, hpn.2]
    · intro e he
      simp only [cfHandle, hd] at he
      injection he with h
      subst h
      exact ⟨rfl, rfl, rfl⟩
    · intro r hr
      simp [cfHandle, hd] at hr
  | some d =>
    have hnotboth : (decide (resp.bodyText ≠ "") && resp.parsed.isNone) = false := by
      by_cases hb : resp.bodyText = ""
      · simp [hb]
      · have hpd : resp.parsed = some d := by
          unfold dataOf at hd
          rw [if_neg hb] at hd
          exact hd
        simp [hpd]
    by_cases hc : (!is2xx resp.status || successIsFalse d) = true
    · refine ⟨?_, ?_, ?_⟩
      · simp [cfHandle, cfFailCond, hd, hc, hnotboth]
        rcases Bool.or_eq_true_iff.mp hc with h | h
        · exact Or.inl (Or.inr (by simpa using h))
        · exact Or.inr h
      · intro e he
        simp only [cfHandle, hd, hc, if_true] at he
        injection he with h
        subst h
        exact ⟨rfl, rfl, rfl⟩
      · intro r hr
        simp [cfHandle, hd, hc] at hr
    · have hc' : (!is2xx resp.status || successIsFalse d) = false :=
        Bool.not_eq_true _ ▸ Bool.of_not_eq_true hc
      refine ⟨?_, ?_, ?_⟩
      · simp [cfHandle, cfFailCond, hd, hc', hnotboth]
        rcases Bool.or_eq_false_iff.mp hc' with ⟨h1, h2⟩
        refine ⟨⟨fun hb hp => ?_, by simpa using h1⟩, h2⟩
        rw [hp] at hnotboth
        simp [hb] at hnotboth
      · intro e he
        simp [cfHandle, hd, hc'] at he
      · intro r hr
        simp only [cfHandle, hd, hc', if_false] at hr
        injection hr with h
        exact h.symm

theorem C6_witness :
    (∃ e, cfHandle "https://api.cloudflare.com/client/v4/zones"
      ⟨404, "", none⟩ = .error e)
    ∧ some (JsonVal.jnum 7)
      = jget ((dataOf ⟨200, "{}",
          some (.jobj [("success", .jbool true), ("result", .jnum 7)])⟩).getD .null)
          "result" :=
  ⟨(C6_cf_error_classification "https://api.cloudflare.com/client/v4/zones"
      ⟨404, "", none⟩).1.mpr (by decide),
   (C6_cf_error_classification "https://api.cloudflare.com/client/v4/zones"
      ⟨200, "{}", some (.jobj [("success", .jbool true), ("result", .jnum 7)])⟩).2.2
      (some (.jnum 7)) rfl⟩

/-! ## Claim C2: `ensureWorkerRoutes` per-pattern convergence -/

/-- The mutating call one pattern produces, per the spec's case analysis:
create when no existing route matches, nothing when the match is already
bound to the worker, update otherwise. -/
def stepWrite (list : List WorkerRoute) (w p : String) : Option RouteWrite :=
  match matchRoute list p with
  | none => some (.create p w)
  | some r => if r.script == w then none else some (.update r.id p w)

/-- A pattern whose case-insensitive match is bound to a different script. -/
def isConflict (list : List WorkerRoute) (w p : String) : Bool :=
  match matchRoute list p with
  | some r => !(r.script == w)
  | none => false

/-- C2: routes are fetched once (the unchanged `list` both conjuncts match
against) and each pattern is processed independently in input order
against that initial list: when `force` is true or no pattern conflicts,
the call succeeds and issues exactly the per-pattern writes (create for
unmatched patterns, none for already-bound ones, update for conflicts
under force); with `force` false, the first conflicting pattern aborts
with `RouteConflict` naming the existing owner, and exactly the writes
of the conflict-free prefix remain applied — no rollback. -/
theorem C2_ensureWorkerRoutes_convergence (list : List WorkerRoute)
    (w : String) (force : Bool) (patterns : List String) :
    ((force = true ∨ ∀ p ∈ patterns, isConflict list w p = false) →
      ensureWorkerRoutes list w force patterns
        = .ok (patterns.filterMap (stepWrite list w)))
    ∧ (∀ pre p post r, force = false → patterns = pre ++ p :: post →
        (∀ q ∈ pre, isConflict list w q = false) →
        matchRoute list p = some r → (r.script == w) = false →
        ensureWorkerRoutes list w force patterns
          = .error (.conflict p r.script, pre.filterMap (stepWrite list w))) := by
  constructor
  · intro h
    induction patterns with
    | nil => rfl
    | cons p ps IH =>
      have hps : force = true ∨ ∀ q ∈ ps, isConflict list w q = false := by
        rcases h with h | h
        · exact Or.inl h
        · exact Or.inr fun q hq => h q (List.mem_cons_of_mem _ hq)
      cases hm : matchRoute list p with
      | none =>
        simp only [ensureWorkerRoutes, hm, IH hps, List.filterMap_cons,
          stepWrite, hm]
      | some r =>
        cases hsw : (r.script == w) with
        | true =>
          simp only [ensureWorkerRoutes, hm, hsw, if_true, IH hps,
            List.filterMap_cons, stepWrite]
        | false =>
          have hforce : force = true := by
            rcases h with h | h
            · exact h
            · exfalso
              have hcp := h p (List.mem_cons_self p ps)
              simp [isConflict, hm, hsw] at hcp
          subst hforce
          simp only [ensureWorkerRoutes, hm, hsw, Bool.not_true,
            Bool.false_eq_true, if_false, IH hps, List.filterMap_cons,
            stepWrite]
  · intro pre p post r hforce hpat hpre hm hsw
    subst hpat
    subst hforce
    induction pre with
    | nil =>
      simp [ensureWorkerRoutes, hm, hsw]
    | cons q pre' IH =>
      have hq : isConflict list w q = false := hpre q (List.mem_cons_self q pre')
      have hpre' : ∀ x ∈ pre', isConflict list w x = false :=
        fun x hx => hpre x (List.mem_cons_of_mem _ hx)
      cases hmq : matchRoute list q with
      | none =>
        simp only [List.cons_append, ensureWorkerRoutes, hmq, List.append_eq,
          IH hpre', List.filterMap_cons, stepWrite]
      | some r' =>
        have hr' : (r'.script == w) = true := by
          simp only [isConflict, hmq] at hq
          cases hx : (r'.script == w) with
          | true => rfl
          | false => rw [hx] at hq; exact Bool.noConfusion hq
        simp only [List.cons_append, ensureWorkerRoutes, hmq, hr', if_true,
          List.append_eq, IH hpre', List.filterMap_cons, stepWrite]

theorem C2_witness :
    ensureWorkerRoutes [⟨"r1", "A.com/*", "other"⟩] "w" false
      ["b.com/*", "a.com/*", "c.com/*"]
    = .error (.conflict "a.com/*" "other", [.create "b.com/*" "w"]) :=
  (C2_ensureWorkerRoutes_convergence [⟨"r1", "A.com/*", "other"⟩] "w" false
      ["b.com/*", "a.com/*", "c.com/*"]).2
    ["b.com/*"] "a.com/*" ["c.com/*"] ⟨"r1", "A.com/*", "other"⟩
    rfl rfl (by decide) (by decide) (by decide)

/-! ## Claim C4: `resolveZone` suffix-candidate search -/

/-- The `find` of `resolveZone`: the first zone in the query result whose
name equals the candidate exactly. -/
def zoneHit (zones : String → List Zone) (c : String) : Option Zone :=
  (zones c).find? (fun z => z.name == c)

theorem splitOnDot_ne_nil (l : List Char) : splitOnDot l ≠ [] := by
  cases l with
  | nil => simp [splitOnDot]
  | cons c rest =>
    unfold splitOnDot
    by_cases hc : c = '.'
    · simp [hc]
    · simp only [if_neg hc]
      cases h : splitOnDot rest <;> simp

theorem splitOnDot_two_le (l : List Char) (h : l.contains '.' = true) :
    2 ≤ (splitOnDot l).length := by
  induction l with
  | nil => simp at h
  | cons c rest IH =>
    unfold splitOnDot
    by_cases hc : c = '.'
    · simp only [if_pos hc, List.length_cons]
      have := List.length_pos.mpr (splitOnDot_ne_nil rest)
      omega
    · simp only [if_neg hc]
      have hr : rest.contains '.' = true := by
        rw [List.contains_cons] at h
        rcases Bool.or_eq_true_iff.mp h with h1 | h1
        · exact absurd (beq_iff_eq.mp h1).symm hc
        · exact h1
      have := IH hr
      cases hs : splitOnDot rest with
      | nil => exact absurd hs (splitOnDot_ne_nil rest)
      | cons a t =>
        rw [hs] at this
        simpa using this

/-- Success inversion for the cf-api non-URL tail. -/
theorem cfBare_ok (input r : List Char) (h : cfBare input = .ok r) :
    r = stripTrailingDots (lowerL input) ∧ r.contains '.' = true ∧
    input.contains '/' = false ∧ input.contains '?' = false ∧
    input.contains '#' = false ∧ input.contains ':' = false := by
  unfold cfBare at h
  split_ifs at h with h1 h2 h3
  injection h with h
  subst h
  have h1' := h1
  simp only [Bool.or_eq_true, not_or, Bool.not_eq_true] at h1'
  refine ⟨rfl, ?_, h1'.1.1, h1'.1.2, h1'.2, by simpa using h2⟩
  simpa using h3

/-- A successful `normEntry` always comes out of the non-URL tail. -/
theorem normEntry_ok_exists (bare : List Char → Except String (List Char))
    (raw : List Char) (r : List Char) (h : normEntry bare raw = .ok r) :
    ∃ input, bare input = .ok r := by
  unfold normEntry at h
  split_ifs at h with h1 h2 h3
  all_goals try exact ⟨_, h⟩
  split at h
  · exact Except.noConfusion h
  · split_ifs at h with h4 h5
    unfold hostEntry at h
    split_ifs at h with h6 h7 h8
    exact ⟨_, h⟩

/-- A successful cf-api `normalizeDomain` output contains a dot. -/
theorem normalizeDomainCf_ok_contains_dot (raw nd : String)
    (h : normalizeDomainCf raw = .ok nd) : nd.data.contains '.' = true := by
  unfold normalizeDomainCf at h
  cases he : normEntry cfBare raw.data with
  | error e => rw [he] at h; exact absurd h (by simp [Except.map])
  | ok l =>
    rw [he] at h
    simp only [Except.map] at h
    injection h with h
    obtain ⟨input, hb⟩ := normEntry_ok_exists cfBare raw.data l he
    have hd := (cfBare_ok input l hb).2.1
    rw [← h]
    exact hd

/-- The candidate loop: the queried names are the candidates up to and
including the first hit (all of them when none hits); the result is the
zone info of the first hit, or an error when no candidate has a zone
with exactly its name. -/
theorem resolveZoneGo_spec (zones : String → List Zone) (nd : String)
    (cands : List String) :
    (resolveZoneGo (fun c => .ok (zones c)) nd cands).1
      = cands.take (cands.findIdx (fun c => (zoneHit zones c).isSome) + 1)
    ∧ (∀ c z, cands.find? (fun c => (zoneHit zones c).isSome) = some c →
        zoneHit zones c = some z →
        (resolveZoneGo (fun c => .ok (zones c)) nd cands).2
          = .ok ⟨z.id, z.name, z.accountId⟩)
    ∧ (cands.find? (fun c => (zoneHit zones c).isSome) = none →
        isErr (resolveZoneGo (fun c => .ok (zones c)) nd cands).2 = true) := by
  induction cands with
  | nil => exact ⟨rfl, fun c z hc => by simp at hc, fun _ => rfl⟩
  | cons c cs IH =>
    cases hz : (zones c).find? (fun z => z.name == c) with
    | some z0 =>
      have hpred : (zoneHit zones c).isSome = true := by
        rw [zoneHit, hz]; rfl
      refine ⟨?_, ?_, ?_⟩
      · simp only [resolveZoneGo, hz, List.findIdx_cons, hpred, cond_true,
          List.take_succ_cons, List.take_zero]
      · intro c' z' hfind hhit
        simp only [List.find?, hpred] at hfind
        injection hfind with hc'
        subst hc'
        rw [zoneHit, hz] at hhit
        injection hhit with hz'
        subst hz'
        simp only [resolveZoneGo, hz]
      · intro hfind
        simp only [List.find?, hpred] at hfind
        exact Option.noConfusion hfind
    | none =>
      have hpred : (zoneHit zones c).isSome = false := by
        rw [zoneHit, hz]; rfl
      refine ⟨?_, ?_, ?_⟩
      · simp only [resolveZoneGo, hz, List.findIdx_cons, hpred, cond_false,
          List.take_succ_cons]
        rw [IH.1]
      · intro c' z' hfind hhit
        simp only [List.find?, hpred] at hfind
        simp only [resolveZoneGo, hz]
        exact IH.2.1 c' z' hfind hhit
      · intro hfind
        simp only [List.find?, hpred] at hfind
        simp only [resolveZoneGo, hz]
        exact IH.2.2 hfind

/-- C4: for every domain whose normalized form has at least two labels,
`resolveZone` queries active zones for exactly the right-aligned label
suffixes of length ≥ 2, most specific first, stopping at the first
candidate owning an active zone with exactly that name and returning its
`{zone_id, zone_name, account_id}`; it fails when no candidate matches. -/
theorem C4_resolveZone_suffix_search (zones : String → List Zone)
    (raw nd : String) (h : normalizeDomainCf raw = .ok nd) :
    2 ≤ (splitOnDot nd.data).length
    ∧ (candidatesOf (splitOnDot nd.data)).length = (splitOnDot nd.data).length - 1
    ∧ (∀ i (hi : i < (candidatesOf (splitOnDot nd.data)).length),
        (candidatesOf (splitOnDot nd.data)).get ⟨i, hi⟩
          = String.mk (List.intercalate ['.'] ((splitOnDot nd.data).drop i))
        ∧ 2 ≤ ((splitOnDot nd.data).drop i).length)
    ∧ (resolveZone (fun c => .ok (zones c)) raw).1
      = (candidatesOf (splitOnDot nd.data)).take
          ((candidatesOf (splitOnDot nd.data)).findIdx
            (fun c => (zoneHit zones c).isSome) + 1)
    ∧ (∀ c z,
        (candidatesOf (splitOnDot nd.data)).find?
          (fun c => (zoneHit zones c).isSome) = some c →
        zoneHit zones c = some z →
        (resolveZone (fun c => .ok (zones c)) raw).2 = .ok ⟨z.id, z.name, z.accountId⟩)
    ∧ ((candidatesOf (splitOnDot nd.data)).find?
          (fun c => (zoneHit zones c).isSome) = none →
        isErr (resolveZone (fun c => .ok (zones c)) raw).2 = true) := by
  have h2 : 2 ≤ (splitOnDot nd.data).length :=
    splitOnDot_two_le nd.data (normalizeDomainCf_ok_contains_dot raw nd h)
  have hlen : (candidatesOf (splitOnDot nd.data)).length
      = (splitOnDot nd.data).length - 1 := by
    unfold candidatesOf
    rw [List.length_map, List.length_range]
  have hrz : resolveZone (fun c => .ok (zones c)) raw
      = resolveZoneGo (fun c => .ok (zones c)) nd (candidatesOf (splitOnDot nd.data)) := by
    simp only [resolveZone, h]
    rw [if_neg (show ¬((splitOnDot nd.data).length < 2) by omega)]
  refine ⟨h2, hlen, fun i hi => ?_, ?_, fun c z hf hh => ?_, fun hf => ?_⟩
  · constructor
    · unfold candidatesOf
      simp only [List.get_eq_getElem, List.getElem_map, List.getElem_range]
    · rw [List.length_drop]
      rw [hlen] at hi
      omega
  · rw [hrz]
    exact (resolveZoneGo_spec zones nd _).1
  · rw [hrz]
    exact (resolveZoneGo_spec zones nd _).2.1 c z hf hh
  · rw [hrz]
    exact (resolveZoneGo_spec zones nd _).2.2 hf

theorem C4_witness :
    (resolveZone
      (fun c => .ok (if c = "example.com" then [⟨"zid", "example.com", some "acc"⟩] else []))
      "a.notes.example.com").2
    = .ok ⟨"zid", "example.com", some "acc"⟩ :=
  (C4_resolveZone_suffix_search
    (fun c => if c = "example.com" then [⟨"zid", "example.com", some "acc"⟩] else [])
    "a.notes.example.com" "a.notes.example.com" (by decide)).2.2.2.2.1
    "example.com" ⟨"zid", "example.com", some "acc"⟩ (by decide) (by decide)

/-! ## Claim C5: `buildName` length bound -/

theorem cdAux_length_le (l : List Char) : ∀ prev, (cdAux prev l).length ≤ l.length := by
  induction l with
  | nil => intro prev; simp [cdAux]
  | cons c rest IH =>
    intro prev
    unfold cdAux
    by_cases hpc : (decide (prev = '-') && decide (c = '-')) = true
    · rw [if_pos hpc]
      exact le_trans (IH prev) (Nat.le_succ _)
    · rw [if_neg hpc]
      simpa using Nat.succ_le_succ (IH c)

theorem collapseDashes_length_le (l : List Char) :
    (collapseDashes l).length ≤ l.length := by
  cases l with
  | nil => simp [collapseDashes]
  | cons c rest =>
    simpa [collapseDashes] using Nat.succ_le_succ (cdAux_length_le rest c)

theorem dropWhile_length_le (p : Char → Bool) (l : List Char) :
    (l.dropWhile p).length ≤ l.length := by
  induction l with
  | nil => simp
  | cons c rest IH =>
    rw [List.dropWhile_cons]
    split
    · exact le_trans IH (Nat.le_succ _)
    · simp

theorem stripTrailingDashes_length_le (l : List Char) :
    (stripTrailingDashes l).length ≤ l.length := by
  unfold stripTrailingDashes
  calc (l.reverse.dropWhile (· == '-')).reverse.length
      = (l.reverse.dropWhile (· == '-')).length := List.length_reverse _
    _ ≤ l.reverse.length := dropWhile_length_le _ _
    _ = l.length := List.length_reverse l

set_option maxRecDepth 10000 in
/-- C5 counterexample: the claim promises length ≤ maxLen for every
prefix, but a 64-character prefix already exceeds the 63 budget before
the slug and hash are appended, and `buildName` does not truncate it. -/
theorem C5_counterexample :
    63 < (buildName
      "aaaaaaaaaaaaaaaaaaaaaaaaaaaaaaaaaaaaaaaaaaaaaaaaaaaaaaaaaaaaaaaa"
      "s" "h" 63).length := by decide

/-- C5 amended: `buildName` reserves the fixed suffix, truncates the slug
to the remaining budget (at least one character), strips a trailing dash
and collapses dash runs; whenever the budget accommodates the fixed part
plus a one-character slug (`prefix.length + hash.length + 3 ≤ maxLen`,
as with the repository's prefixes and 8-char hashes at the default 63)
the result's length never exceeds `maxLen`.  The function is pure, so
the output is deterministic in its inputs. -/
theorem C5_buildName_length (pfx slug hashv : String) (maxLen : Nat)
    (h : pfx.length + hashv.length + 3 ≤ maxLen) :
    (buildName pfx slug hashv maxLen).length ≤ maxLen := by
  have h' : pfx.data.length + hashv.data.length + 3 ≤ maxLen := h
  unfold buildName
  set k := (max 1 ((maxLen : Int) - (pfx.data ++ '-' :: '-' :: hashv.data).length)).toNat
    with hkdef
  set ts := stripTrailingDashes (slug.data.take k) with htsdef
  have hfxlen : (pfx.data ++ '-' :: '-' :: hashv.data).length
      = pfx.data.length + 2 + hashv.data.length := by
    simp [List.length_append]
    omega
  have hkle : k ≤ maxLen - pfx.data.length - hashv.data.length - 2 := by
    rw [hkdef, hfxlen]
    omega
  have hT : ts.length ≤ k := by
    rw [htsdef]
    refine le_trans (stripTrailingDashes_length_le _) ?_
    rw [List.length_take]
    omega
  show (String.mk (collapseDashes (pfx.data ++ '-' :: (ts ++ '-' :: hashv.data)))).length
    ≤ maxLen
  have hcol := collapseDashes_length_le (pfx.data ++ '-' :: (ts ++ '-' :: hashv.data))
  have hfin : (pfx.data ++ '-' :: (ts ++ '-' :: hashv.data)).length
      = pfx.data.length + 1 + (ts.length + 1 + hashv.data.length) := by
    simp [List.length_append]
    omega
  show (collapseDashes (pfx.data ++ '-' :: (ts ++ '-' :: hashv.data))).length ≤ maxLen
  omega

theorem C5_witness :
    (buildName "inkrypt-api" "notes-example-com" "abcd1234" 63).length ≤ 63 :=
  C5_buildName_length "inkrypt-api" "notes-example-com" "abcd1234" 63 (by decide)

/-! ## Claim C3: normalizeDomain rejection set -/

theorem lowerChar_eq_dot {c : Char} (h : lowerChar c = '.') : c = '.' := by
  unfold lowerChar at h
  split at h
  all_goals try simp at h
  exact h

theorem mem_stripTrailingDots {c : Char} {l : List Char}
    (h : c ∈ stripTrailingDots l) : c ∈ l := by
  unfold stripTrailingDots at h
  rw [List.mem_reverse] at h
  have := (List.dropWhile_sublist (· == '.')).mem h
  rwa [List.mem_reverse] at this

/-- Lowercasing then stripping trailing dots cannot create a dot. -/
theorem contains_dot_of_strip_lower (input : List Char)
    (h : (stripTrailingDots (lowerL input)).contains '.' = true) :
    input.contains '.' = true := by
  rw [List.elem_iff] at h ⊢
  have h1 : '.' ∈ lowerL input := mem_stripTrailingDots h
  obtain ⟨c, hc, hcl⟩ := List.mem_map.mp h1
  rw [lowerChar_eq_dot hcl] at hc
  exact hc

theorem isErr_map_mk (e : Except String (List Char)) :
    isErr (e.map String.mk) = isErr e := by
  cases e <;> rfl

/-- Success inversion for the config-resolver non-URL tail. -/
theorem cfgBare_ok (input r : List Char) (h : cfgBare input = .ok r) :
    r = stripTrailingDots (lowerL input)
    ∧ input.contains '/' = false ∧ input.contains '?' = false
    ∧ input.contains '#' = false ∧ input.contains ':' = false
    ∧ r.isEmpty = false ∧ regexDomainAll r = true ∧ r.contains '.' = true
    ∧ r.length ≤ 253 ∧ labelsCheck (splitOnDot r) = none := by
  unfold cfgBare at h
  split_ifs at h with h1 h2 h3 h4 h5 h6
  revert h
  split
  · intro h; exact Except.noConfusion h
  · intro h
    injection h with h
    subst h
    have h1' := h1
    simp only [Bool.or_eq_true, not_or, Bool.not_eq_true] at h1'
    refine ⟨rfl, h1'.1.1, h1'.1.2, h1'.2, by simpa using h2, by simpa using h3,
      by simpa using h4, by simpa using h5, by omega, by assumption⟩

theorem labelsCheck_none {ls : List (List Char)} (h : labelsCheck ls = none) :
    ∀ l ∈ ls, l.length ≤ 63 := by
  induction ls with
  | nil => intro l hl; simp at hl
  | cons a t IH =>
    intro l hl
    unfold labelsCheck at h
    split_ifs at h with h1 h2 h3 h4
    rcases List.mem_cons.mp hl with rfl | hl'
    · omega
    · exact IH h l hl'

theorem isErr_of_no_ok {e : Except String (List Char)}
    (h : ∀ r, e = .ok r → False) : isErr e = true := by
  cases e with
  | error _ => rfl
  | ok r => exact absurd rfl (h r)

/-- The shared entry errors whenever the trimmed input is scheme-free and
the non-URL tail errs on it. -/
theorem normEntry_err_of_bare (bare : List Char → Except String (List Char))
    (raw : List Char) (hsep : sepInfix (jsTrim raw) = false)
    (hb : isErr (bare (jsTrim raw)) = true) :
    isErr (normEntry bare raw) = true := by
  unfold normEntry
  split_ifs with h1 h2 h3
  all_goals try rfl
  all_goals try exact hb
  rw [h3] at hsep
  exact Bool.noConfusion hsep

/-- The shared entry errors whenever the input parses as a URL whose
scheme is not http(s) or whose path/query/fragment is nonempty. -/
theorem normEntry_err_of_url (bare : List Char → Except String (List Char))
    (raw : List Char) (u : URLRec) (hsep : sepInfix (jsTrim raw) = true)
    (hp : parseURL (jsTrim raw) = some u)
    (hfail : (!(u.scheme == "http".data || u.scheme == "https".data)) = true
      ∨ (!(u.pathname == ['/']) || !u.search.isEmpty || !u.hash.isEmpty) = true) :
    isErr (normEntry bare raw) = true := by
  unfold normEntry
  split_ifs with h1 h2
  all_goals try rfl
  simp only [hp]
  rcases hfail with hf | hf
  · rw [if_pos hf]; rfl
  · by_cases hs : (!(u.scheme == "http".data || u.scheme == "https".data)) = true
    · rw [if_pos hs]; rfl
    · rw [if_neg hs, if_pos hf]; rfl

set_option maxRecDepth 10000 in
/-- C3 counterexample: the claim demands rejection of every input
containing a port and of every input with a label longer than 63
characters, but a http(s) URL carrying a port is accepted with the port
stripped, and the cf-api `normalizeDomain` (one of the claim's two cited
implementations) accepts a 64-character label. -/
theorem C3_counterexample :
    normalizeDomainCf "https://example.com:8080" = .ok "example.com"
    ∧ normalizeDomainCf
        "aaaaaaaaaaaaaaaaaaaaaaaaaaaaaaaaaaaaaaaaaaaaaaaaaaaaaaaaaaaaaaaa.com"
      = .ok "aaaaaaaaaaaaaaaaaaaaaaaaaaaaaaaaaaaaaaaaaaaaaaaaaaaaaaaaaaaaaaaa.com" :=
  ⟨by decide, by decide⟩

/-- C3 amended: before any network access both `normalizeDomain` variants
fail for every scheme-free input containing `:` (so `example.com:8080` is
rejected; a http(s) URL input carrying a port is instead accepted with
the port stripped), for every scheme-free input containing `/` and every
URL input whose path is not `/`, for every URL input with a non-http(s)
scheme, and for every scheme-free input without a dot; the
config-resolver variant additionally rejects labels longer than 63
characters (every accepted domain has labels of length ≤ 63), while the
cf-api variant does not enforce the label limit. -/
theorem C3_normalizeDomain_rejections :
    (∀ raw : String, sepInfix (jsTrim raw.data) = false →
      (jsTrim raw.data).contains ':' = true →
      isErr (normalizeDomainCf raw) = true ∧ isErr (normalizeDomainCfg raw) = true)
    ∧ (∀ raw : String, sepInfix (jsTrim raw.data) = false →
      (jsTrim raw.data).contains '/' = true →
      isErr (normalizeDomainCf raw) = true ∧ isErr (normalizeDomainCfg raw) = true)
    ∧ (∀ (raw : String) (u : URLRec), sepInfix (jsTrim raw.data) = true →
      parseURL (jsTrim raw.data) = some u → u.pathname ≠ ['/'] →
      isErr (normalizeDomainCf raw) = true ∧ isErr (normalizeDomainCfg raw) = true)
    ∧ (∀ (raw : String) (u : URLRec), sepInfix (jsTrim raw.data) = true →
      parseURL (jsTrim raw.data) = some u →
      u.scheme ≠ "http".data → u.scheme ≠ "https".data →
      isErr (normalizeDomainCf raw) = true ∧ isErr (normalizeDomainCfg raw) = true)
    ∧ (∀ raw : String, sepInfix (jsTrim raw.data) = false →
      (jsTrim raw.data).contains '.' = false →
      isErr (normalizeDomainCf raw) = true ∧ isErr (normalizeDomainCfg raw) = true)
    ∧ (∀ raw nd : String, normalizeDomainCfg raw = .ok nd →
      ∀ l ∈ splitOnDot nd.data, l.length ≤ 63) := by
  have hcf : ∀ (raw : String) (hsep : sepInfix (jsTrim raw.data) = false)
      (hb : isErr (cfBare (jsTrim raw.data)) = true),
      isErr (normalizeDomainCf raw) = true := fun raw hsep hb => by
    rw [normalizeDomainCf, isErr_map_mk]
    exact normEntry_err_of_bare cfBare raw.data hsep hb
  have hcfg : ∀ (raw : String) (hsep : sepInfix (jsTrim raw.data) = false)
      (hb : isErr (cfgBare (jsTrim raw.data)) = true),
      isErr (normalizeDomainCfg raw) = true := fun raw hsep hb => by
    rw [normalizeDomainCfg, isErr_map_mk]
    exact normEntry_err_of_bare cfgBare raw.data hsep hb
  have hcfBare : ∀ (input : List Char),
      (input.contains ':' = true ∨ input.contains '/' = true ∨
        input.contains '.' = false) →
      isErr (cfBare input) = true := by
    intro input hc
    apply isErr_of_no_ok
    intro r hr
    obtain ⟨hrdef, hdot, hslash, _hq, _hh, hcolon⟩ := cfBare_ok input r hr
    rcases hc with hc | hc | hc
    · rw [hc] at hcolon; exact Bool.noConfusion hcolon
    · rw [hc] at hslash; exact Bool.noConfusion hslash
    · rw [hrdef] at hdot
      rw [contains_dot_of_strip_lower input hdot] at hc
      exact Bool.noConfusion hc
  have hcfgBare : ∀ (input : List Char),
      (input.contains ':' = true ∨ input.contains '/' = true ∨
        input.contains '.' = false) →
      isErr (cfgBare input) = true := by
    intro input hc
    apply isErr_of_no_ok
    intro r hr
    obtain ⟨hrdef, hslash, _hq, _hh, hcolon, _he, _hreg, hdot, _hlen, _hlc⟩ :=
      cfgBare_ok input r hr
    rcases hc with hc | hc | hc
    · rw [hc] at hcolon; exact Bool.noConfusion hcolon
    · rw [hc] at hslash; exact Bool.noConfusion hslash
    · rw [hrdef] at hdot
      rw [contains_dot_of_strip_lower input hdot] at hc
      exact Bool.noConfusion hc
  have hurl : ∀ (raw : String) (u : URLRec), sepInfix (jsTrim raw.data) = true →
      parseURL (jsTrim raw.data) = some u →
      ((!(u.scheme == "http".data || u.scheme == "https".data)) = true
        ∨ (!(u.pathname == ['/']) || !u.search.isEmpty || !u.hash.isEmpty) = true) →
      isErr (normalizeDomainCf raw) = true ∧ isErr (normalizeDomainCfg raw) = true := by
    intro raw u hsep hp hfail
    constructor
    · rw [normalizeDomainCf, isErr_map_mk]
      exact normEntry_err_of_url cfBare raw.data u hsep hp hfail
    · rw [normalizeDomainCfg, isErr_map_mk]
      exact normEntry_err_of_url cfgBare raw.data u hsep hp hfail
  refine ⟨fun raw hsep hc => ?_, fun raw hsep hc => ?_,
    fun raw u hsep hp hpath => ?_, fun raw u hsep hp hs1 hs2 => ?_,
    fun raw hsep hd => ?_, fun raw nd h => ?_⟩
  · exact ⟨hcf raw hsep (hcfBare _ (Or.inl hc)),
      hcfg raw hsep (hcfgBare _ (Or.inl hc))⟩
  · exact ⟨hcf raw hsep (hcfBare _ (Or.inr (Or.inl hc))),
      hcfg raw hsep (hcfgBare _ (Or.inr (Or.inl hc)))⟩
  · refine hurl raw u hsep hp (Or.inr ?_)
    have : (u.pathname == ['/']) = false := beq_eq_false_iff_ne.mpr hpath
    rw [this]
    rfl
  · refine hurl raw u hsep hp (Or.inl ?_)
    rw [beq_eq_false_iff_ne.mpr hs1, beq_eq_false_iff_ne.mpr hs2]
    rfl
  · exact ⟨hcf raw hsep (hcfBare _ (Or.inr (Or.inr hd))),
      hcfg raw hsep (hcfgBare _ (Or.inr (Or.inr hd)))⟩
  · rw [normalizeDomainCfg] at h
    cases he : normEntry cfgBare raw.data with
    | error e => rw [he] at h; exact absurd h (by simp [Except.map])
    | ok l =>
      rw [he] at h
      simp only [Except.map] at h
      injection h with h
      obtain ⟨input, hb⟩ := normEntry_ok_exists cfgBare raw.data l he
      have hlc := (cfgBare_ok input l hb).2.2.2.2.2.2.2.2.2
      intro lab hlab
      rw [← h] at hlab
      exact labelsCheck_none hlc lab hlab

theorem C3_witness :
    isErr (normalizeDomainCf "example.com:8080") = true
    ∧ isErr (normalizeDomainCfg "example.com:8080") = true :=
  C3_normalizeDomain_rejections.1 "example.com:8080" (by decide) (by decide)

/-! ## Claim C8: idempotence of normalization -/

/-- Every character of the config-resolver's charset is already
lowercase, non-whitespace, and none of the structural separators. -/
theorem domainChar_props {c : Char} (h : c ∈ domainChars) :
    lowerChar c = c ∧ isWs c = false
    ∧ c ≠ ':' ∧ c ≠ '/' ∧ c ≠ '?' ∧ c ≠ '#' := by
  have hall : domainChars.all (fun c => (lowerChar c == c) && !(isWs c)
      && !(c == ':') && !(c == '/') && !(c == '?') && !(c == '#')) = true := by decide
  have hc := List.all_eq_true.mp hall c h
  simp only [Bool.and_eq_true, Bool.not_eq_true', beq_eq_false_iff_ne,
    beq_iff_eq] at hc
  exact ⟨hc.1.1.1.1.1, by rw [hc.1.1.1.1.2], hc.1.1.1.2, hc.1.1.2, hc.1.2, hc.2⟩

theorem dropWhile_eq_self (p : Char → Bool) (l : List Char)
    (h : ∀ c ∈ l, p c = false) : l.dropWhile p = l := by
  cases l with
  | nil => rfl
  | cons c rest =>
    rw [List.dropWhile_cons, h c (List.mem_cons_self c rest)]
    simp

theorem jsTrim_eq_self (l : List Char) (h : ∀ c ∈ l, isWs c = false) :
    jsTrim l = l := by
  unfold jsTrim
  rw [dropWhile_eq_self _ _ h,
    dropWhile_eq_self _ _ (fun c hc => h c (List.mem_reverse.mp hc)),
    List.reverse_reverse]

theorem dropWhile_idem (p : Char → Bool) (l : List Char) :
    (l.dropWhile p).dropWhile p = l.dropWhile p := by
  induction l with
  | nil => rfl
  | cons c rest IH =>
    rw [List.dropWhile_cons]
    by_cases h : p c = true
    · rw [if_pos h]
      exact IH
    · rw [if_neg h, List.dropWhile_cons, if_neg h]

theorem stripTrailingDots_idem (l : List Char) :
    stripTrailingDots (stripTrailingDots l) = stripTrailingDots l := by
  unfold stripTrailingDots
  rw [List.reverse_reverse, dropWhile_idem]

theorem lowerL_eq_self (l : List Char) (h : ∀ c ∈ l, lowerChar c = c) :
    lowerL l = l := by
  unfold lowerL
  induction l with
  | nil => rfl
  | cons c rest IH =>
    rw [List.map_cons, h c (List.mem_cons_self c rest),
      IH (fun x hx => h x (List.mem_cons_of_mem _ hx))]

theorem contains_eq_false_of_forall_ne {c : Char} {l : List Char}
    (h : ∀ x ∈ l, x ≠ c) : l.contains c = false := by
  cases hcc : l.contains c with
  | false => rfl
  | true => exact absurd rfl (h c (List.elem_iff.mp hcc))

theorem colon_mem_of_sepInfix {l : List Char} (h : sepInfix l = true) :
    ':' ∈ l := by
  unfold sepInfix at h
  induction l with
  | nil => simp [hasSub] at h
  | cons c rest IH =>
    unfold hasSub at h
    rcases Bool.or_eq_true_iff.mp h with h1 | h1
    · simp only [List.isPrefixOf, Bool.and_eq_true, beq_iff_eq] at h1
      rw [← h1.1]
      exact List.mem_cons_self _ _
    · exact List.mem_cons_of_mem _ (IH h1)

theorem sepInfix_eq_false_of_no_colon {l : List Char} (h : ∀ x ∈ l, x ≠ ':') :
    sepInfix l = false := by
  cases hs : sepInfix l with
  | false => rfl
  | true => exact absurd rfl (h ':' (colon_mem_of_sepInfix hs))

/-- C8 counterexample: the cf-api `normalizeDomain` (cited by the claim)
is not idempotent: it performs no charset validation, so an interior
space survives, and stripping the trailing dot exposes a trailing space
that the second normalization trims away. -/
theorem C8_counterexample :
    normalizeDomainCf "a.com ." = .ok "a.com "
    ∧ normalizeDomainCf "a.com " = .ok "a.com"
    ∧ ("a.com " : String) ≠ "a.com" := ⟨by decide, by decide, by decide⟩

/-- C8 amended: the config-resolver `normalizeDomain` (part_000) is
idempotent — every accepted output is accepted unchanged when fed back —
while the cf-api variant can emit a value containing whitespace that
re-normalizes to a different string. -/
theorem C8_normalizeDomainCfg_idempotent (d r : String)
    (h : normalizeDomainCfg d = .ok r) : normalizeDomainCfg r = .ok r := by
  rw [normalizeDomainCfg] at h
  cases he : normEntry cfgBare d.data with
  | error e => rw [he] at h; exact absurd h (by simp [Except.map])
  | ok l =>
    rw [he] at h
    simp only [Except.map] at h
    injection h with h
    obtain ⟨input, hb⟩ := normEntry_ok_exists cfgBare d.data l he
    obtain ⟨hrdef, _hsl, _hq, _hh, _hcl, hne, hreg, hdot, hlen, hlc⟩ :=
      cfgBare_ok input l hb
    have hchars : ∀ c ∈ l, c ∈ domainChars := by
      intro c hc
      have := (Bool.and_eq_true ..).mp hreg
      have hall := List.all_eq_true.mp this.2 c hc
      exact List.elem_iff.mp (by simpa using hall)
    have hlower : lowerL l = l :=
      lowerL_eq_self _ (fun c hc => (domainChar_props (hchars c hc)).1)
    have htrim : jsTrim l = l :=
      jsTrim_eq_self _ (fun c hc => (domainChar_props (hchars c hc)).2.1)
    have hstrip : stripTrailingDots l = l := by
      rw [hrdef]
      exact stripTrailingDots_idem _
    have hsep : sepInfix l = false :=
      sepInfix_eq_false_of_no_colon
        (fun c hc => (domainChar_props (hchars c hc)).2.2.1)
    have hcolon : l.contains ':' = false :=
      contains_eq_false_of_forall_ne
        (fun c hc => (domainChar_props (hchars c hc)).2.2.1)
    have hslash : l.contains '/' = false :=
      contains_eq_false_of_forall_ne
        (fun c hc => (domainChar_props (hchars c hc)).2.2.2.1)
    have hqm : l.contains '?' = false :=
      contains_eq_false_of_forall_ne
        (fun c hc => (domainChar_props (hchars c hc)).2.2.2.2.1)
    have hhm : l.contains '#' = false :=
      contains_eq_false_of_forall_ne
        (fun c hc => (domainChar_props (hchars c hc)).2.2.2.2.2)
    have hrd : r.data = l := by rw [← h]
    have hbare : cfgBare l = .ok l := by
      unfold cfgBare
      rw [hlower, hstrip, hslash, hqm, hhm, hcolon, hlc]
      rw [if_neg (by simp), if_neg (by simp), if_neg (by simp [hne]),
        if_neg (by simp [hreg]), if_neg (by rw [hdot]; simp),
        if_neg (by omega)]
    have hentry : normEntry cfgBare l = .ok l := by
      unfold normEntry
      rw [htrim, hsep]
      rw [if_neg (by simp [hne]), if_neg (by simp [hne]),
        if_neg (by simp)]
      exact hbare
    rw [normalizeDomainCfg, hrd, hentry]
    simp only [Except.map]
    rw [← h]

theorem C8_witness : normalizeDomainCfg "notes.example.com" = .ok "notes.example.com" :=
  C8_normalizeDomainCfg_idempotent "notes.example.com" "notes.example.com" (by decide)

/-! ## Claim C10: repeated `--route` flags -/

theorem isDashDash_shape {t : String} (hd : isDashDash t = true) :
    ∃ rest, t.data = '-' :: '-' :: rest := by
  unfold isDashDash at hd
  cases ht : t.data with
  | nil => rw [ht] at hd; exact Bool.noConfusion hd
  | cons c1 r1 =>
    cases r1 with
    | nil => rw [ht] at hd; exact Bool.noConfusion hd
    | cons c2 r2 =>
      rw [ht] at hd
      have hd' : (c1 == '-' && c2 == '-') = true := hd
      simp only [Bool.and_eq_true, beq_iff_eq] at hd'
      exact ⟨r2, by rw [hd'.1, hd'.2]⟩

theorem eq_dashdash_route {t : String} (hd : isDashDash t = true)
    (hk : keyOf t = "route") : t = "--route" := by
  obtain ⟨rest, hsh⟩ := isDashDash_shape hd
  unfold keyOf at hk
  have hkd : t.data.drop 2 = "route".data := congrArg String.data hk
  have hrest : rest = "route".data := by
    rw [hsh] at hkd
    simpa using hkd
  cases t with
  | mk data =>
    simp only at hsh
    rw [show (String.mk data) = String.mk ('-' :: '-' :: "route".data) from by
      rw [← hrest, ← hsh]]

/-- Flag keys other than `route` never disturb the stored `--route`
value: scanning a tail containing no `--route` token leaves it intact. -/
theorem pArgs_route_preserved (l : List String) :
    ∀ (pending : Option String) (acc : ParsedArgs),
      (∀ t ∈ l, t ≠ "--route") → pending ≠ some "route" →
      (pArgs pending l acc).flags "route" = acc.flags "route" := by
  induction l with
  | nil =>
    intro pending acc _ hp
    cases pending with
    | none => rfl
    | some k =>
      show setF acc.flags k .flagTrue "route" = acc.flags "route"
      unfold setF
      rw [if_neg (fun hx => hp (by rw [← hx]))]
  | cons a rest IH =>
    intro pending acc hl hp
    have ha : a ≠ "--route" := hl a (List.mem_cons_self a rest)
    have hrest : ∀ t ∈ rest, t ≠ "--route" :=
      fun t ht => hl t (List.mem_cons_of_mem _ ht)
    have hkey : isDashDash a = true → some (keyOf a) ≠ (some "route" : Option String) := by
      intro hd hx
      injection hx with hx
      exact ha (eq_dashdash_route hd hx)
    cases pending with
    | none =>
      by_cases hd : isDashDash a = true
      · rw [show pArgs none (a :: rest) acc = pArgs (some (keyOf a)) rest acc from by
          simp only [pArgs, hd, if_true]]
        exact IH _ _ hrest (hkey hd)
      · rw [show pArgs none (a :: rest) acc
            = pArgs none rest ⟨acc.positional ++ [a], acc.flags⟩ from by
          simp only [pArgs, hd, Bool.false_eq_true, if_false]]
        exact IH _ _ hrest (by simp)
    | some k =>
      have hkr : "route" ≠ k := fun hx => hp (by rw [← hx])
      by_cases hd : isDashDash a = true
      · rw [show pArgs (some k) (a :: rest) acc
            = pArgs (some (keyOf a)) rest ⟨acc.positional, setF acc.flags k .flagTrue⟩ from by
          simp only [pArgs, hd, if_true]]
        rw [IH _ _ hrest (hkey hd)]
        show setF acc.flags k .flagTrue "route" = acc.flags "route"
        unfold setF
        rw [if_neg hkr]
      · rw [show pArgs (some k) (a :: rest) acc
            = pArgs none rest ⟨acc.positional, setF acc.flags k (.str a)⟩ from by
          simp only [pArgs, hd, Bool.false_eq_true, if_false]]
        rw [IH _ _ hrest (by simp)]
        show setF acc.flags k (.str a) "route" = acc.flags "route"
        unfold setF
        rw [if_neg hkr]

/-- After scanning `l₁ ++ ["--route", v] ++ l₂` where `v` is a value
token and `l₂` contains no further `--route`, the stored route flag is
exactly `v`: the last occurrence wins and earlier values are lost. -/
theorem pArgs_route_last (v : String) (l₂ : List String)
    (hv : isDashDash v = false) (h₂ : ∀ t ∈ l₂, t ≠ "--route") :
    ∀ (l₁ : List String) (pending : Option String) (acc : ParsedArgs),
      (pArgs pending (l₁ ++ "--route" :: v :: l₂) acc).flags "route"
        = some (.str v) := by
  have hdd : isDashDash "--route" = true := by decide
  have hkr : keyOf "--route" = "route" := by decide
  intro l₁
  induction l₁ with
  | nil =>
    intro pending acc
    have hstep : ∀ acc' : ParsedArgs,
        (pArgs (some (keyOf "--route")) (v :: l₂) acc').flags "route"
          = some (.str v) := by
      intro acc'
      rw [show pArgs (some (keyOf "--route")) (v :: l₂) acc'
          = pArgs none l₂ ⟨acc'.positional,
              setF acc'.flags (keyOf "--route") (.str v)⟩ from by
        simp only [pArgs, hv, Bool.false_eq_true, if_false]]
      rw [pArgs_route_preserved l₂ none _ h₂ (by simp)]
      show setF acc'.flags (keyOf "--route") (.str v) "route" = some (.str v)
      unfold setF
      rw [hkr, if_pos rfl]
    rw [List.nil_append]
    cases pending with
    | none =>
      rw [show pArgs none (("--route" :: v :: l₂ : List String)) acc
          = pArgs (some (keyOf "--route")) (v :: l₂) acc from by
        simp only [pArgs, hdd, if_true]]
      exact hstep acc
    | some k =>
      rw [show pArgs (some k) (("--route" :: v :: l₂ : List String)) acc
          = pArgs (some (keyOf "--route")) (v :: l₂)
              ⟨acc.positional, setF acc.flags k .flagTrue⟩ from by
        simp only [pArgs, hdd, if_true]]
      exact hstep _
  | cons a l₁' IH =>
    intro pending acc
    cases pending with
    | none =>
      by_cases hd : isDashDash a = true
      · rw [show pArgs none ((a :: l₁') ++ "--route" :: v :: l₂) acc
            = pArgs (some (keyOf a)) (l₁' ++ "--route" :: v :: l₂) acc from by
          simp only [List.cons_append, pArgs, hd, if_true, List.append_eq]]
        exact IH _ _
      · rw [show pArgs none ((a :: l₁') ++ "--route" :: v :: l₂) acc
            = pArgs none (l₁' ++ "--route" :: v :: l₂)
                ⟨acc.positional ++ [a], acc.flags⟩ from by
          simp only [List.cons_append, pArgs, hd, Bool.false_eq_true, if_false, List.append_eq]]
        exact IH _ _
    | some k =>
      by_cases hd : isDashDash a = true
      · rw [show pArgs (some k) ((a :: l₁') ++ "--route" :: v :: l₂) acc
            = pArgs (some (keyOf a)) (l₁' ++ "--route" :: v :: l₂)
                ⟨acc.positional, setF acc.flags k .flagTrue⟩ from by
          simp only [List.cons_append, pArgs, hd, if_true, List.append_eq]]
        exact IH _ _
      · rw [show pArgs (some k) ((a :: l₁') ++ "--route" :: v :: l₂) acc
            = pArgs none (l₁' ++ "--route" :: v :: l₂)
                ⟨acc.positional, setF acc.flags k (.str a)⟩ from by
          simp only [List.cons_append, pArgs, hd, Bool.false_eq_true, if_false, List.append_eq]]
        exact IH _ _

/-- C10: with `--route` supplied more than once, only the last
occurrence's value reaches pattern collection; that value is split on
commas, the pieces trimmed, empties dropped; and the handler fails when
no non-empty pattern remains. -/
theorem C10_route_last_wins :
    (∀ (l₁ l₂ : List String) (v : String), isDashDash v = false →
      (∀ t ∈ l₂, t ≠ "--route") →
      collectPatterns (parseArgs (l₁ ++ "--route" :: v :: l₂)) = splitPatterns v)
    ∧ dispatch ["ensure-worker-routes", "--zone-id", "z", "--worker-name", "w",
        "--route", ", ,"]
        ⟨some "t", none, none, none, none⟩ (fun _ => .ok []) (.ok []) (.ok [])
      = .threw "At least one --route <pattern> is required" := by
  constructor
  · intro l₁ l₂ v hv h₂
    have hflag : (parseArgs (l₁ ++ "--route" :: v :: l₂)).flags "route"
        = some (.str v) := pArgs_route_last v l₂ hv h₂ l₁ none _
    unfold collectPatterns splitPatterns
    rw [hflag]
    simp
  · decide

theorem C10_witness :
    collectPatterns (parseArgs
      (["--route", "a.com/*"] ++ "--route" :: "b.com/*,c.com/*" :: []))
      = splitPatterns "b.com/*,c.com/*" :=
  C10_route_last_wins.1 ["--route", "a.com/*"] [] "b.com/*,c.com/*"
    (by decide) (by simp)

/-! ## Claim C9: process exit codes -/

/-- C9 counterexample: the claim says a missing required flag such as
`--zone-id` is a usage error exiting with code 2, but the handler throws
(`--zone-id is required`), so the process dies with Node's
uncaught-exception code 1, not 2. -/
theorem C9_counterexample :
    dispatch ["ensure-dns-a", "--name", "a.com"]
      ⟨some "t", none, none, none, none⟩ (fun _ => .ok []) (.ok []) (.ok [])
      = .threw "--zone-id is required"
    ∧ runExitCode (dispatch ["ensure-dns-a", "--name", "a.com"]
        ⟨some "t", none, none, none, none⟩ (fun _ => .ok []) (.ok []) (.ok []))
      ≠ 2 := ⟨by decide, by decide⟩

/-- C9 amended: exit code 0 on success; 2 exactly for a missing or
unknown subcommand; and operational failures — validation errors,
conflicts, remote API errors — as well as missing required flags
terminate via an uncaught thrown error, i.e. Node's exit code 1
(nonzero and ≠ 2), with the message on the error stream. -/
theorem C9_exit_codes :
    (∀ (argv : List String) (env : EnvVars)
        (fz : String → Except String (List Zone))
        (fd : Except String (List DnsRecord))
        (fr : Except String (List WorkerRoute)),
      (parseArgs argv).positional.head?.getD "" = "" →
      dispatch argv env fz fd fr = .exited 2)
    ∧ (∀ (argv : List String) (env : EnvVars)
        (fz : String → Except String (List Zone))
        (fd : Except String (List DnsRecord))
        (fr : Except String (List WorkerRoute)) (c t : String),
      (parseArgs argv).positional.head?.getD "" = c →
      c ≠ "" → c ≠ "resolve-zone" → c ≠ "ensure-dns-a" →
      c ≠ "ensure-worker-routes" →
      getTokenM (parseArgs argv) env = .ok t →
      dispatch argv env fz fd fr = .exited 2)
    ∧ dispatch ["resolve-zone", "--domain", "a.com"]
        ⟨some "t", none, none, none, none⟩
        (fun c => .ok (if c = "a.com" then [⟨"zid", "a.com", some "acc"⟩] else []))
        (.ok []) (.ok [])
      = .exited 0
    ∧ (dispatch ["resolve-zone", "--domain", "localhost"]
        ⟨some "t", none, none, none, none⟩ (fun _ => .ok []) (.ok []) (.ok [])
      = .threw "DOMAIN must contain at least one dot, e.g. notes.example.com"
      ∧ runExitCode (dispatch ["resolve-zone", "--domain", "localhost"]
          ⟨some "t", none, none, none, none⟩ (fun _ => .ok []) (.ok []) (.ok []))
        = 1)
    ∧ (dispatch ["ensure-dns-a", "--zone-id", "z", "--name", "a.com"]
        ⟨some "t", none, none, none, none⟩ (fun _ => .ok [])
        (.ok [⟨"r1", "A", "a.com", "9.9.9.9", false⟩]) (.ok [])
      = .threw (dnsFailMsg (.dnsConflict "a.com" "192.0.2.1"))
      ∧ runExitCode (dispatch ["ensure-dns-a", "--zone-id", "z", "--name", "a.com"]
          ⟨some "t", none, none, none, none⟩ (fun _ => .ok [])
          (.ok [⟨"r1", "A", "a.com", "9.9.9.9", false⟩]) (.ok []))
        = 1)
    ∧ (dispatch ["ensure-worker-routes", "--zone-id", "z", "--worker-name", "w",
        "--route", "a.com/*"]
        ⟨some "t", none, none, none, none⟩ (fun _ => .ok [])
        (.ok []) (.ok [⟨"r1", "a.com/*", "other"⟩])
      = .threw (routeFailMsg (.conflict "a.com/*" "other"))
      ∧ runExitCode (dispatch ["ensure-worker-routes", "--zone-id", "z",
          "--worker-name", "w", "--route", "a.com/*"]
          ⟨some "t", none, none, none, none⟩ (fun _ => .ok [])
          (.ok []) (.ok [⟨"r1", "a.com/*", "other"⟩]))
        = 1) := by
  refine ⟨fun argv env fz fd fr h => ?_, fun argv env fz fd fr c t hc hne h1 h2 h3 htok => ?_,
    by decide, ⟨by decide, by decide⟩, ⟨by decide, by decide⟩, ⟨by decide, by decide⟩⟩
  · simp only [dispatch]
    rw [if_pos h]
  · simp only [dispatch]
    rw [hc, if_neg hne, htok]
    rw [if_neg h1, if_neg h2, if_neg h3]

theorem C9_witness :
    dispatch [] ⟨some "t", none, none, none, none⟩ (fun _ => .ok []) (.ok []) (.ok [])
      = .exited 2 :=
  C9_exit_codes.1 [] ⟨some "t", none, none, none, none⟩
    (fun _ => .ok []) (.ok []) (.ok []) rfl

end Inkrypt
